import Mathlib

/-!
Verification development for the DRC repository (NRC training pipeline).

The development shallowly embeds the parts of `main.py` and
`src/bak_0224/networks_gmm_h.py` that the checked properties speak about:

* `normalize` from `main.py` is embedded over rational-valued tensors
  (a tensor is a list of its scalar entries);
* the network modules (`GLU`, `ImageHead`, `MaskHead`, `FgNet`, `BgNet`,
  `SpNet`, `CEBMNet`) are embedded value-level: learned sub-modules whose
  weights are runtime data become opaque function fields of a structure,
  while the glue the properties are about (slicing, composition,
  activations, permutation) is embedded concretely over `ℝ`;
* the layer-construction helpers (`spectral_norm`, `UpBlock`,
  `BaseDecoder`, ...) are embedded as a small inductive `Module` syntax
  together with a shape semantics, mirroring how the Python constructors
  assemble `nn.Sequential` pipelines;
* the training loop body of `main.py` is embedded as a step function that
  records the externally visible actions of one loop iteration as an
  event trace.

`detach()` is the identity on values (it only severs gradients), so the
embedding drops it.
-/

namespace DRC

/-! ## Activation functions (framework primitives used by the networks) -/

/-- `torch.sigmoid` / `nn.Sigmoid`: `1 / (1 + exp (-x))`. -/
noncomputable def sigmoid (x : ℝ) : ℝ := 1 / (1 + Real.exp (-x))

lemma sigmoid_pos (x : ℝ) : 0 < sigmoid x := by
  have h : (0 : ℝ) < 1 + Real.exp (-x) := by positivity
  exact div_pos one_pos h

lemma sigmoid_lt_one (x : ℝ) : sigmoid x < 1 := by
  have he : (0 : ℝ) < Real.exp (-x) := Real.exp_pos _
  have h : (0 : ℝ) < 1 + Real.exp (-x) := by positivity
  rw [sigmoid, div_lt_one h]
  linarith

lemma neg_one_lt_tanh (x : ℝ) : -1 < Real.tanh x := by
  have h1 : Real.sinh (-x) < Real.cosh (-x) := Real.sinh_lt_cosh (-x)
  have h2 : (0 : ℝ) < Real.cosh x := Real.cosh_pos x
  rw [Real.sinh_neg, Real.cosh_neg] at h1
  rw [Real.tanh_eq_sinh_div_cosh, neg_lt, ← neg_div, div_lt_one h2]
  exact h1

lemma tanh_lt_one (x : ℝ) : Real.tanh x < 1 := by
  have h1 : Real.sinh x < Real.cosh x := Real.sinh_lt_cosh x
  have h2 : (0 : ℝ) < Real.cosh x := Real.cosh_pos x
  rw [Real.tanh_eq_sinh_div_cosh, div_lt_one h2]
  exact h1

/-! ## `normalize` from `main.py` (lines 59-67)

A tensor is modelled by the list of its scalar entries; `img.max()` and
`img.min()` are folds over that list, and the literal `1e-5` is the exact
rational `1 / 100000`. `torch.zeros(img.shape)` / `torch.ones(img.shape)`
keep the shape, i.e. they map every entry to `0` / `1`. -/

def tinyEps : ℚ := 1 / 100000

/-- `img.max()`: maximum entry of a (nonempty) tensor. -/
def tmax : List ℚ → ℚ
  | [] => 0
  | x :: xs => xs.foldl max x

/-- `img.min()`: minimum entry of a (nonempty) tensor. -/
def tmin : List ℚ → ℚ
  | [] => 0
  | x :: xs => xs.foldl min x

/-- Embedding of `normalize(img)` from `main.py`. -/
def normalize (img : List ℚ) : List ℚ :=
  if tmax img - tmin img < tinyEps then
    if tmax img < tinyEps then img.map (fun _ => 0)
    else img.map (fun _ => 1)
  else
    img.map (fun x => (x - tmin img) / (tmax img - tmin img))

lemma le_foldl_max (l : List ℚ) (a : ℚ) : a ≤ l.foldl max a := by
  induction l generalizing a with
  | nil => exact le_refl a
  | cons b t ih => exact le_trans (le_max_left a b) (ih (max a b))

lemma mem_le_foldl_max (l : List ℚ) (a x : ℚ) (hx : x ∈ l) : x ≤ l.foldl max a := by
  induction l generalizing a with
  | nil => cases hx
  | cons b t ih =>
      rcases List.mem_cons.mp hx with h | h
      · subst h
        exact le_trans (le_max_right a x) (le_foldl_max t (max a x))
      · exact ih (max a b) h

lemma foldl_min_le (l : List ℚ) (a : ℚ) : l.foldl min a ≤ a := by
  induction l generalizing a with
  | nil => exact le_refl a
  | cons b t ih => exact le_trans (ih (min a b)) (min_le_left a b)

lemma foldl_min_le_mem (l : List ℚ) (a x : ℚ) (hx : x ∈ l) : l.foldl min a ≤ x := by
  induction l generalizing a with
  | nil => cases hx
  | cons b t ih =>
      rcases List.mem_cons.mp hx with h | h
      · subst h
        exact le_trans (foldl_min_le t (min a x)) (min_le_right a x)
      · exact ih (min a b) h

lemma mem_le_tmax (img : List ℚ) (x : ℚ) (hx : x ∈ img) : x ≤ tmax img := by
  cases img with
  | nil => cases hx
  | cons b t =>
      rcases List.mem_cons.mp hx with h | h
      · subst h
        exact le_foldl_max t x
      · exact mem_le_foldl_max t b x h

lemma tmin_le_mem (img : List ℚ) (x : ℚ) (hx : x ∈ img) : tmin img ≤ x := by
  cases img with
  | nil => cases hx
  | cons b t =>
      rcases List.mem_cons.mp hx with h | h
      · subst h
        exact foldl_min_le t x
      · exact foldl_min_le_mem t b x h

/-- C10: `normalize` returns a tensor with all values in `[0, 1]`; when
`max - min < 1e-5` it returns all zeros if `max < 1e-5` and all ones
otherwise, and in every other case it returns `(img - min) / (max - min)`,
whose divisor is then at least `1e-5`. -/
theorem normalize_bounded_and_guarded (img : List ℚ) :
    (∀ y ∈ normalize img, 0 ≤ y ∧ y ≤ 1) ∧
    (tmax img - tmin img < tinyEps → tmax img < tinyEps →
      normalize img = img.map (fun _ => 0)) ∧
    (tmax img - tmin img < tinyEps → ¬ tmax img < tinyEps →
      normalize img = img.map (fun _ => 1)) ∧
    (¬ tmax img - tmin img < tinyEps →
      normalize img = img.map (fun x => (x - tmin img) / (tmax img - tmin img)) ∧
      tinyEps ≤ tmax img - tmin img) := by
  refine ⟨?_, ?_, ?_, ?_⟩
  · intro y hy
    unfold normalize at hy
    split_ifs at hy with h1 h2
    · rcases List.mem_map.mp hy with ⟨x, _, rfl⟩
      exact ⟨le_refl 0, by norm_num⟩
    · rcases List.mem_map.mp hy with ⟨x, _, rfl⟩
      exact ⟨by norm_num, le_refl 1⟩
    · rcases List.mem_map.mp hy with ⟨x, hx, rfl⟩
      have hd : tinyEps ≤ tmax img - tmin img := not_lt.mp h1
      have hdpos : (0 : ℚ) < tmax img - tmin img := by
        have : (0 : ℚ) < tinyEps := by norm_num [tinyEps]
        linarith
      constructor
      · exact div_nonneg (sub_nonneg.mpr (tmin_le_mem img x hx)) hdpos.le
      · rw [div_le_one hdpos]
        have := mem_le_tmax img x hx
        linarith
  · intro h1 h2
    simp [normalize, h1, h2]
  · intro h1 h2
    simp [normalize, h1, h2]
  · intro h1
    exact ⟨by simp [normalize, h1], not_lt.mp h1⟩

/-! ## `GLU` (networks_gmm_h.py, lines 12-21)

A feature map entering `GLU` is modelled by its channel count together
with its entries, indexed by batch, channel and flattened spatial
position. The Python `assert nc % 2 == 0` makes the forward pass fallible,
so the embedding returns an `Option`. -/

structure CTensor where
  nc : ℕ
  data : ℕ → ℕ → ℕ → ℝ

/-- Embedding of `GLU.forward`: `x[:, :nc] * torch.sigmoid(x[:, nc:])`
with `nc = x.size(1) / 2`, guarded by `assert x.size(1) % 2 == 0`. -/
noncomputable def GLU.forward (x : CTensor) : Option CTensor :=
  if x.nc % 2 = 0 then
    some ⟨x.nc / 2,
          fun b c p => x.data b c p * sigmoid (x.data b (x.nc / 2 + c) p)⟩
  else
    none

/-! ## `ImageHead`, `MaskHead`, `FgNet`, `BgNet`
(networks_gmm_h.py, lines 259-293, 413-539)

Learned layers (convolutions, the fully connected stem, the decoder trunk)
have runtime weights, so they are opaque function fields; the glue this
development checks — which activation is applied where and how the outputs
are composed — is embedded concretely. A feature map is a function from
flattened (batch, channel, position) indices to `ℝ`, and a latent batch is
a list of scalars. -/

structure ImageHead where
  conv : (ℕ → ℝ) → ℕ → ℝ

/-- `ImageHead.forward`: a 3x3 convolution followed by `nn.Tanh`. -/
noncomputable def ImageHead.forward (m : ImageHead) (x : ℕ → ℝ) : ℕ → ℝ :=
  fun i => Real.tanh (m.conv x i)

structure MaskHead where
  conv : (ℕ → ℝ) → ℕ → ℝ

/-- `MaskHead.forward`: a 3x3 convolution followed by `nn.Sigmoid`. -/
noncomputable def MaskHead.forward (m : MaskHead) (x : ℕ → ℝ) : ℕ → ℝ :=
  fun i => sigmoid (m.conv x i)

structure FgNet where
  fc : List ℝ → ℕ → ℝ
  decode_base : (ℕ → ℝ) → ℕ → ℝ
  im_head : ImageHead
  ma_head : (ℕ → ℝ) → ℕ → ℝ

/-- Embedding of `FgNet.forward`: returns
`(app, ma, app * ma.sigmoid(), z_f)`. `ma_head` is a bare convolution
(no activation), so `ma` is returned pre-sigmoid. -/
noncomputable def FgNet.forward (net : FgNet) (z : List ℝ) :
    (ℕ → ℝ) × (ℕ → ℝ) × (ℕ → ℝ) × (ℕ → ℝ) :=
  let z_f := net.fc z
  let obj_latent := net.decode_base z_f
  let app := net.im_head.forward obj_latent
  let ma := net.ma_head obj_latent
  let app_and_ma := fun i => app i * sigmoid (ma i)
  (app, ma, app_and_ma, z_f)

structure BgNet where
  fc : List ℝ → ℕ → ℝ
  decode_base : (ℕ → ℝ) → ℕ → ℝ
  im_head : ImageHead
  ma_head : (ℕ → ℝ) → ℕ → ℝ

/-- Embedding of `BgNet.forward`: returns
`(bg, ma, bg * ma.sigmoid(), z_b)` with `ma` again pre-sigmoid. -/
noncomputable def BgNet.forward (net : BgNet) (z : List ℝ) :
    (ℕ → ℝ) × (ℕ → ℝ) × (ℕ → ℝ) × (ℕ → ℝ) :=
  let z_b := net.fc z
  let bg_latent := net.decode_base z_b
  let bg := net.im_head.forward bg_latent
  let ma := net.ma_head bg_latent
  (bg, ma, fun i => bg i * sigmoid (ma i), z_b)

/-! ## `SpNet` (networks_gmm_h.py, lines 541-591)

The deformation branch works on four-dimensional feature maps, which are
modelled with an explicit shape so that the final `permute(0, 2, 3, 1)`
is visible in the embedding. -/

structure Tensor4 where
  shape : ℕ × ℕ × ℕ × ℕ
  data : ℕ → ℕ → ℕ → ℕ → ℝ

/-- `t.permute(0, 2, 3, 1)`: channel-first to channel-last layout. -/
def Tensor4.permute_0231 (t : Tensor4) : Tensor4 :=
  ⟨(t.shape.1, t.shape.2.2.1, t.shape.2.2.2, t.shape.2.1),
   fun b h w c => t.data b c h w⟩

/-- `torch.cat([a, b], dim=1)`: concatenation along the channel axis. -/
def Tensor4.catC (a b : Tensor4) : Tensor4 :=
  ⟨(a.shape.1, a.shape.2.1 + b.shape.2.1, a.shape.2.2.1, a.shape.2.2.2),
   fun n c h w =>
     if c < a.shape.2.1 then a.data n c h w
     else b.data n (c - a.shape.2.1) h w⟩

structure Tensor2 where
  rows : ℕ
  cols : ℕ
  data : ℕ → ℕ → ℝ

structure SpNet where
  fc : Tensor2 → Tensor2
  view44 : Tensor2 → Tensor4
  decode_base_deform : Tensor4 → Tensor4
  decode_deform : Tensor4 → Tensor4

/-- Embedding of `SpNet.forward`: the spatial latent is mapped through the
stem, reshaped to `(bs, -1, 4, 4)` (`view44`), concatenated with `z_b`
along channels, decoded, and the resulting grid is permuted from
`(B, 2, H, W)` to `(B, H, W, 2)`; `z_f` is accepted but unused, and the
second and third results are the literal `None`s of the source. -/
def SpNet.forward (net : SpNet) (z : Tensor2) (z_f z_b : Tensor4) :
    Tensor4 × Option Tensor4 × Option Tensor4 :=
  let z_sp := net.fc z
  let deform_latent := Tensor4.catC (net.view44 z_sp) z_b
  let deform_decoded := net.decode_base_deform deform_latent
  let deform_grid := net.decode_deform deform_decoded
  (deform_grid.permute_0231, none, none)

/-- Concrete two-channel input used to witness the `GLU` theorem. -/
noncomputable def gluInput : CTensor := ⟨2, fun _ _ _ => 0⟩

/-- C8: when the channel count is even, `GLU.forward` does not hit its
assertion, halves the channel count, and returns the first half of the
channels multiplied elementwise by the sigmoid of the second half. -/
theorem glu_forward_halves_channels (x : CTensor) (h : x.nc % 2 = 0) :
    ∃ y, GLU.forward x = some y ∧ y.nc * 2 = x.nc ∧
      ∀ b c p, y.data b c p = x.data b c p * sigmoid (x.data b (x.nc / 2 + c) p) := by
  refine ⟨⟨x.nc / 2,
           fun b c p => x.data b c p * sigmoid (x.data b (x.nc / 2 + c) p)⟩,
          ?_, ?_, ?_⟩
  · simp [GLU.forward, h]
  · show x.nc / 2 * 2 = x.nc
    omega
  · intro b c p
    rfl

/-- C8 witness: the theorem applied to a concrete even-channel input. -/
theorem glu_forward_halves_channels_witness :
    gluInput.nc % 2 = 0 ∧
    ∃ y, GLU.forward gluInput = some y ∧ y.nc * 2 = gluInput.nc ∧
      ∀ b c p, y.data b c p =
        gluInput.data b c p * sigmoid (gluInput.data b (gluInput.nc / 2 + c) p) :=
  ⟨by decide, glu_forward_halves_channels gluInput (by decide)⟩

/-- C3: `FgNet.forward` returns as its third component the appearance
tensor times the sigmoid of the mask tensor, and `BgNet.forward` returns
its composed background as `bg * sigmoid(ma)`; in both networks the mask
returned alongside is the raw (pre-sigmoid) output of the mask head. -/
theorem fg_bg_composition (f : FgNet) (g : BgNet) (z w : List ℝ) :
    ((f.forward z).2.2.1 = fun i => (f.forward z).1 i * sigmoid ((f.forward z).2.1 i)) ∧
    (f.forward z).2.1 = f.ma_head (f.decode_base (f.fc z)) ∧
    ((g.forward w).2.2.1 = fun i => (g.forward w).1 i * sigmoid ((g.forward w).2.1 i)) ∧
    (g.forward w).2.1 = g.ma_head (g.decode_base (g.fc w)) :=
  ⟨rfl, rfl, rfl, rfl⟩

/-- C9: `ImageHead.forward` lands strictly inside `(-1, 1)` (final tanh),
`MaskHead.forward` strictly inside `(0, 1)` (final sigmoid), and hence the
appearance image of `FgNet` and the background image of `BgNet` — both
produced by an `ImageHead` — lie strictly inside `(-1, 1)`. -/
theorem head_output_ranges (m : ImageHead) (mk : MaskHead) (f : FgNet) (g : BgNet)
    (x : ℕ → ℝ) (z w : List ℝ) (i : ℕ) :
    (-1 < m.forward x i ∧ m.forward x i < 1) ∧
    (0 < mk.forward x i ∧ mk.forward x i < 1) ∧
    (-1 < (f.forward z).1 i ∧ (f.forward z).1 i < 1) ∧
    (-1 < (g.forward w).1 i ∧ (g.forward w).1 i < 1) := by
  refine ⟨⟨neg_one_lt_tanh _, tanh_lt_one _⟩,
          ⟨sigmoid_pos _, sigmoid_lt_one _⟩, ⟨?_, ?_⟩, ⟨?_, ?_⟩⟩
  · exact neg_one_lt_tanh _
  · exact tanh_lt_one _
  · exact neg_one_lt_tanh _
  · exact tanh_lt_one _

/-- C4: `SpNet.forward` returns the decoded deformation grid permuted
from `(B, 2, H, W)` to `(B, H, W, 2)` layout — `permute(0, 2, 3, 1)`
rotates the channel extent behind the spatial extents and reindexes the
entries accordingly — and its second and third results are always `None`. -/
theorem spnet_forward_permuted_grid (net : SpNet) (z : Tensor2) (z_f z_b : Tensor4) :
    (net.forward z z_f z_b).1 =
      Tensor4.permute_0231
        (net.decode_deform
          (net.decode_base_deform (Tensor4.catC (net.view44 (net.fc z)) z_b))) ∧
    (net.forward z z_f z_b).2.1 = none ∧
    (net.forward z z_f z_b).2.2 = none ∧
    (∀ t : Tensor4,
      (Tensor4.permute_0231 t).shape =
        (t.shape.1, t.shape.2.2.1, t.shape.2.2.2, t.shape.2.1) ∧
      ∀ b h w c, (Tensor4.permute_0231 t).data b h w c = t.data b c h w) :=
  ⟨rfl, rfl, rfl, fun _ => ⟨rfl, fun _ _ _ _ => rfl⟩⟩

/-! ## Layer construction helpers
(networks_gmm_h.py, lines 23-53, 84-128, 185-200)

The Python constructors assemble `nn.Sequential` pipelines out of layer
primitives. The embedding gives that assembly language as an inductive
syntax: a module is a primitive layer, a spectral-norm wrapper around a
module, or a sequential composition. A shape semantics `outShape` mirrors
how each primitive transforms a `(B, C, H, W)` feature map (`None` when
the layer rejects the input, e.g. a channel mismatch). -/

inductive Module where
  | conv2d (inC outC k s p : ℕ) (bias : Bool)
  | upsample2x
  | instanceNorm2d (c : ℕ)
  | leakyReLU (slope : ℚ)
  | spcNormWrap (m : Module)
  | ident
  | comp (a b : Module)
deriving DecidableEq

/-- `nn.Sequential(*blocks)`: left-to-right composition. -/
def Module.seq (ms : List Module) : Module :=
  ms.foldr Module.comp Module.ident

/-- Embedding of the `spectral_norm` helper: wrap when `mode` is true,
return the module unchanged otherwise. -/
def spectral_norm (m : Module) (mode : Bool) : Module :=
  if mode then Module.spcNormWrap m else m

/-- Does a module contain a spectral-norm wrapper anywhere? -/
def Module.hasSpcNorm : Module → Bool
  | .spcNormWrap _ => true
  | .comp a b => a.hasSpcNorm || b.hasSpcNorm
  | _ => false

/-- Embedding of `UpBlock.__init__`: Upsample(2x), 3x3 stride-1 pad-1
conv (optionally spectrally normalized), InstanceNorm2d, LeakyReLU
(default slope 0.01). -/
def UpBlock (in_channels out_channels : ℕ) (use_spc_norm : Bool) : Module :=
  Module.seq [Module.upsample2x,
              spectral_norm (Module.conv2d in_channels out_channels 3 1 1 false)
                use_spc_norm,
              Module.instanceNorm2d out_channels,
              Module.leakyReLU (1 / 100)]

/-- Embedding of `DownBlock.__init__`: 4x4 stride-2 pad-1 conv
(optionally spectrally normalized), InstanceNorm2d, LeakyReLU(0.2). -/
def DownBlock (in_channels out_channels : ℕ) (use_spc_norm : Bool) : Module :=
  Module.seq [spectral_norm (Module.conv2d in_channels out_channels 4 2 1 false)
                use_spc_norm,
              Module.instanceNorm2d out_channels,
              Module.leakyReLU (2 / 10)]

/-- Embedding of `SameBlock.__init__`: 3x3 stride-1 pad-1 conv
(optionally spectrally normalized), InstanceNorm2d, LeakyReLU(r). -/
def SameBlock (in_channels out_channels : ℕ) (r : ℚ) (use_spc_norm : Bool) : Module :=
  Module.seq [spectral_norm (Module.conv2d in_channels out_channels 3 1 1 false)
                use_spc_norm,
              Module.instanceNorm2d out_channels,
              Module.leakyReLU r]

/-- Embedding of `BaseDecoder.__init__`: one `UpBlock` per adjacent pair
of the channel list. -/
def BaseDecoder (block_chns : List ℕ) (use_spc_norm : Bool) : Module :=
  Module.seq ((List.range (block_chns.length - 1)).map
    (fun i => UpBlock (block_chns.getD i 0) (block_chns.getD (i + 1) 0)
      use_spc_norm))

/-- Output spatial extent of a convolution:
`(h + 2 * padding - kernel) / stride + 1`. -/
def convOutDim (h k s p : ℕ) : ℕ := (h + 2 * p - k) / s + 1

/-- Shape semantics of a module on a `(B, C, H, W)` feature map. -/
def outShape : Module → ℕ × ℕ × ℕ × ℕ → Option (ℕ × ℕ × ℕ × ℕ)
  | .conv2d inC outC k s p _, (b, c, h, w) =>
      if c = inC then some (b, outC, convOutDim h k s p, convOutDim w k s p)
      else none
  | .upsample2x, (b, c, h, w) => some (b, c, 2 * h, 2 * w)
  | .instanceNorm2d c0, (b, c, h, w) =>
      if c = c0 then some (b, c, h, w) else none
  | .leakyReLU _, sh => some sh
  | .spcNormWrap m, sh => outShape m sh
  | .ident, sh => some sh
  | .comp a b, sh => (outShape a sh).bind (outShape b)

lemma hasSpcNorm_seq (ms : List Module) :
    (Module.seq ms).hasSpcNorm = ms.any Module.hasSpcNorm := by
  induction ms with
  | nil => rfl
  | cons a t ih =>
      show (a.hasSpcNorm || (Module.seq t).hasSpcNorm) = _
      rw [ih, List.any_cons]

lemma upblock_no_spc (c1 c2 : ℕ) : (UpBlock c1 c2 false).hasSpcNorm = false := rfl

lemma base_decoder_no_spc (chns : List ℕ) :
    (BaseDecoder chns false).hasSpcNorm = false := by
  rw [BaseDecoder, hasSpcNorm_seq, List.any_eq_false]
  intro m hm
  rcases List.mem_map.mp hm with ⟨i, _, rfl⟩
  simp [upblock_no_spc]

lemma upblock_shape (c1 c2 u H W : ℕ) (b : Bool) (hH : 1 ≤ H) (hW : 1 ≤ W) :
    outShape (UpBlock c1 c2 b) (u, c1, H, W) = some (u, c2, 2 * H, 2 * W) := by
  have harith : ∀ n, 1 ≤ n → convOutDim (2 * n) 3 1 1 = 2 * n := by
    intro n hn
    show (2 * n + 2 * 1 - 3) / 1 + 1 = 2 * n
    omega
  cases b <;>
    simp [UpBlock, Module.seq, spectral_norm, outShape, harith H hH, harith W hW]

/-- C6: `spectral_norm` with `mode = false` is the identity on modules and
with `mode = true` wraps the module in spectral weight normalization;
consequently the blocks and the decoder built with `use_spc_norm = false`
contain no spectral-norm wrapper anywhere. -/
theorem spectral_norm_mode (m : Module) (c1 c2 : ℕ) (r : ℚ) (chns : List ℕ) :
    spectral_norm m false = m ∧
    spectral_norm m true = Module.spcNormWrap m ∧
    (UpBlock c1 c2 false).hasSpcNorm = false ∧
    (DownBlock c1 c2 false).hasSpcNorm = false ∧
    (SameBlock c1 c2 r false).hasSpcNorm = false ∧
    (BaseDecoder chns false).hasSpcNorm = false :=
  ⟨rfl, rfl, rfl, rfl, rfl, base_decoder_no_spc chns⟩

/-- C7: `BaseDecoder` with the default channel list
`[128, 1024, 512, 256, 128, 64]` is exactly five `UpBlock`s; every
`UpBlock` doubles the spatial resolution of a nonempty feature map; and on
a `(B, 128, 4, 4)` input the decoder therefore produces `(B, 64, 128, 128)`. -/
theorem base_decoder_default_shape (B : ℕ) :
    BaseDecoder [128, 1024, 512, 256, 128, 64] false =
      Module.seq [UpBlock 128 1024 false, UpBlock 1024 512 false,
                  UpBlock 512 256 false, UpBlock 256 128 false,
                  UpBlock 128 64 false] ∧
    (∀ c1 c2 u H W : ℕ, ∀ b : Bool, 1 ≤ H → 1 ≤ W →
      outShape (UpBlock c1 c2 b) (u, c1, H, W) = some (u, c2, 2 * H, 2 * W)) ∧
    outShape (BaseDecoder [128, 1024, 512, 256, 128, 64] false) (B, 128, 4, 4) =
      some (B, 64, 128, 128) := by
  refine ⟨rfl, fun c1 c2 u H W b hH hW => upblock_shape c1 c2 u H W b hH hW, ?_⟩
  show outShape (Module.seq [UpBlock 128 1024 false, UpBlock 1024 512 false,
                  UpBlock 512 256 false, UpBlock 256 128 false,
                  UpBlock 128 64 false]) (B, 128, 4, 4) = some (B, 64, 128, 128)
  simp [Module.seq, outShape, UpBlock, spectral_norm, convOutDim]

/-! ## `CEBMNet` (networks_gmm_h.py, lines 597-700)

Per-sample embedding: a latent batch row is a list of scalars. The learned
energy heads (`fg_model_*`, `bg_model_*`, `sp_model`) are opaque function
fields; the slicing of `z` and the assembly of the score are embedded
concretely. `torch.logsumexp(v, dim=1)` on a row is `log (Σ exp)`, Python
slices clamp out-of-range bounds exactly like `List.drop`/`List.take`, and
`detach()` is the identity on values. -/

/-- `torch.logsumexp` over a row of logits. -/
noncomputable def logsumexp (v : List ℝ) : ℝ := Real.log ((v.map Real.exp).sum)

/-- Python slice `l[a:b]` (with clamping). -/
def pySlice (a b : ℕ) (l : List ℝ) : List ℝ := (l.drop a).take (b - a)

structure CEBMNet where
  zf_dim : ℕ
  zb_dim : ℕ
  zsp_dim : ℕ
  fg_model_0 : List ℝ → List ℝ
  fg_model_1 : List ℝ → List ℝ → List ℝ
  fg_model_2 : List ℝ → List ℝ → List ℝ
  fg_model_3 : List ℝ → List ℝ → List ℝ
  bg_model_0 : List ℝ → List ℝ
  bg_model_1 : List ℝ → List ℝ → List ℝ
  bg_model_2 : List ℝ → List ℝ → List ℝ
  bg_model_3 : List ℝ → List ℝ → List ℝ
  sp_model : List ℝ → ℝ

/-- The tuple returned by `CEBMNet.forward`, with the nested logit tuples
flattened into named fields (in source order). -/
structure EBMScore where
  score : ℝ
  fg0 : List ℝ
  fg1 : List ℝ
  fg2 : List ℝ
  fg3 : List ℝ
  bg0 : List ℝ
  bg1 : List ℝ
  bg2 : List ℝ
  bg3 : List ℝ
  sp : ℝ

/-- Embedding of `CEBMNet.forward`. -/
noncomputable def CEBMNet.forward (net : CEBMNet) (z : List ℝ) : EBMScore :=
  let zf := z.take net.zf_dim
  let zb := (z.drop net.zf_dim).take net.zb_dim
  let zs := z.drop (z.length - net.zsp_dim)
  let zs_logits := net.sp_model zs
  let zf_logits_0 := net.fg_model_0 (zf.take 128)
  let zf_logits_1 := net.fg_model_1 (zf.take 128) (pySlice 128 256 zf)
  let zf_logits_2 := net.fg_model_2 (pySlice 128 256 zf) (pySlice 256 384 zf)
  let zf_logits_3 := net.fg_model_3 (pySlice 256 384 zf) (pySlice 384 512 zf)
  let zb_logits_0 := net.bg_model_0 (zb.take 128)
  let zb_logits_1 := net.bg_model_1 (zb.take 128) (pySlice 128 256 zb)
  let zb_logits_2 := net.bg_model_2 (pySlice 128 256 zb) (pySlice 256 384 zb)
  let zb_logits_3 := net.bg_model_3 (pySlice 256 384 zb) (pySlice 384 512 zb)
  let score := logsumexp zf_logits_0 + logsumexp zf_logits_1 +
               logsumexp zf_logits_2 + logsumexp zf_logits_3 +
               logsumexp zb_logits_0 + logsumexp zb_logits_1 +
               logsumexp zb_logits_2 + logsumexp zb_logits_3 + zs_logits
  ⟨score, zf_logits_0, zf_logits_1, zf_logits_2, zf_logits_3,
   zb_logits_0, zb_logits_1, zb_logits_2, zb_logits_3, zs_logits⟩

/-- What C1 asserts of `CEBMNet.forward` at latent `z`: the score is the
sum of the logsumexp of the four foreground logit groups and the four
background logit groups plus the spatial logits, the foreground groups are
computed from the first `zf_dim` components of `z`, the background groups
from the next `zb_dim` components, and the spatial logits from the last
`zsp_dim` components. -/
def scoreDecomposition (net : CEBMNet) (z : List ℝ) : Prop :=
  (net.forward z).score =
    logsumexp (net.forward z).fg0 + logsumexp (net.forward z).fg1 +
    logsumexp (net.forward z).fg2 + logsumexp (net.forward z).fg3 +
    logsumexp (net.forward z).bg0 + logsumexp (net.forward z).bg1 +
    logsumexp (net.forward z).bg2 + logsumexp (net.forward z).bg3 +
    (net.forward z).sp ∧
  (net.forward z).fg0 = net.fg_model_0 ((z.take net.zf_dim).take 128) ∧
  (net.forward z).fg1 = net.fg_model_1 ((z.take net.zf_dim).take 128)
    (pySlice 128 256 (z.take net.zf_dim)) ∧
  (net.forward z).fg2 = net.fg_model_2 (pySlice 128 256 (z.take net.zf_dim))
    (pySlice 256 384 (z.take net.zf_dim)) ∧
  (net.forward z).fg3 = net.fg_model_3 (pySlice 256 384 (z.take net.zf_dim))
    (pySlice 384 512 (z.take net.zf_dim)) ∧
  (net.forward z).bg0 = net.bg_model_0 (((z.drop net.zf_dim).take net.zb_dim).take 128) ∧
  (net.forward z).bg1 = net.bg_model_1 (((z.drop net.zf_dim).take net.zb_dim).take 128)
    (pySlice 128 256 ((z.drop net.zf_dim).take net.zb_dim)) ∧
  (net.forward z).bg2 = net.bg_model_2
    (pySlice 128 256 ((z.drop net.zf_dim).take net.zb_dim))
    (pySlice 256 384 ((z.drop net.zf_dim).take net.zb_dim)) ∧
  (net.forward z).bg3 = net.bg_model_3
    (pySlice 256 384 ((z.drop net.zf_dim).take net.zb_dim))
    (pySlice 384 512 ((z.drop net.zf_dim).take net.zb_dim)) ∧
  (net.forward z).sp = net.sp_model (z.drop (net.zf_dim + net.zb_dim))

/-- C1: every latent `z` of length `zf_dim + zb_dim + zsp_dim` is split by
`CEBMNet.forward` into the foreground / background / spatial segments, and
the returned score decomposes as the sum of the eight logsumexp terms plus
the spatial logits. -/
theorem cebm_forward_score_decomposition (net : CEBMNet) (z : List ℝ)
    (h : z.length = net.zf_dim + net.zb_dim + net.zsp_dim) :
    scoreDecomposition net z := by
  have hdrop : z.length - net.zsp_dim = net.zf_dim + net.zb_dim := by omega
  refine ⟨rfl, rfl, rfl, rfl, rfl, rfl, rfl, rfl, rfl, ?_⟩
  show net.sp_model (z.drop (z.length - net.zsp_dim)) =
    net.sp_model (z.drop (net.zf_dim + net.zb_dim))
  rw [hdrop]

/-- Concrete energy network and latent used to witness the C1 theorem. -/
noncomputable def ebmWitnessNet : CEBMNet :=
  ⟨1, 1, 1,
   fun _ => [0], fun _ _ => [0], fun _ _ => [0], fun _ _ => [0],
   fun _ => [0], fun _ _ => [0], fun _ _ => [0], fun _ _ => [0],
   fun _ => 0⟩

noncomputable def ebmWitnessZ : List ℝ := [0, 0, 0]

/-- C1 witness: the theorem applied to a concrete network and latent whose
length is exactly `zf_dim + zb_dim + zsp_dim`. -/
theorem cebm_forward_score_decomposition_witness :
    ebmWitnessZ.length = ebmWitnessNet.zf_dim + ebmWitnessNet.zb_dim +
      ebmWitnessNet.zsp_dim ∧
    scoreDecomposition ebmWitnessNet ebmWitnessZ :=
  ⟨rfl, cebm_forward_score_decomposition ebmWitnessNet ebmWitnessZ rfl⟩

/-! ## The training loop body (main.py, lines 138-177)

`EABPModel` lives in `src/models.py`, outside the embedded sources, so its
operations are opaque fields over an abstract model-state type `σ`
(`learn` is the only one that changes state — it steps the optimizers and
advances `model.iteration`). One pass of the `for items in train_loader`
body is embedded as `trainStep`, which records the externally visible
actions in order as an event trace: the two Langevin inference calls, the
single `learn` call with its arguments, and the conditional log / sample /
save actions. The `break` on `iteration >= max_iteration` happens before
those three conditionals, so in that case the trace stops at `learn`.
Python truthiness of `config.LOG_INTERVAL` (and the other two intervals)
is `≠ 0`. -/

structure TrainConfig where
  max_iters : ℕ
  log_interval : ℕ
  sample_interval : ℕ
  save_interval : ℕ

/-- The operations `main.py` invokes on the model, over an abstract state
type `σ`, latent type `Z`, batch type `B` (an image batch together with
its dataset indices) and log-value type `L`. -/
structure EABPModel (σ Z B L : Type) where
  sample_langevin_prior : σ → B → Z
  sample_langevin_posterior : σ → B → Z
  learn : σ → Z → Z → B → σ × L
  iteration : σ → ℕ

/-- The externally visible actions of one pass of the loop body. -/
inductive Event (Z B : Type) where
  | samplePriorEv (z : Z)
  | samplePosteriorEv (z : Z)
  | learnEv (zp zn : Z) (im : B)
  | logEv
  | sampleEv
  | saveEv

/-- Embedding of one pass of the training-loop body: the returned state is
the model state after `learn`, the list is the trace of actions in program
order, and the boolean is `keep_training` (false when the pass hits the
`break`). -/
def trainStep {σ Z B L : Type} (cfg : TrainConfig) (m : EABPModel σ Z B L)
    (s : σ) (im : B) : σ × List (Event Z B) × Bool :=
  let zn := m.sample_langevin_prior s im
  let zp := m.sample_langevin_posterior s im
  let s2 := (m.learn s zp zn im).1
  let iteration := m.iteration s2
  let base := [Event.samplePriorEv zn, Event.samplePosteriorEv zp,
               Event.learnEv zp zn im]
  if cfg.max_iters ≤ iteration then
    (s2, base, false)
  else
    (s2,
     base ++
       (if cfg.log_interval ≠ 0 ∧ iteration % cfg.log_interval = 0
        then [Event.logEv] else []) ++
       (if cfg.sample_interval ≠ 0 ∧ iteration % cfg.sample_interval = 0
        then [Event.sampleEv] else []) ++
       (if cfg.save_interval ≠ 0 ∧ iteration % cfg.save_interval = 0
        then [Event.saveEv] else []),
     true)

/-- Is an event the `learn` update? -/
def isLearnEv {Z B : Type} : Event Z B → Bool
  | .learnEv _ _ _ => true
  | _ => false

/-- C2: each pass of the training loop first draws the prior Langevin
sample, then the posterior Langevin sample, and then performs exactly one
`learn` update, whose arguments are the posterior sample, the prior
sample, and the input batch, in that order. -/
theorem train_step_inference_then_learn {σ Z B L : Type} (cfg : TrainConfig)
    (m : EABPModel σ Z B L) (s : σ) (im : B) :
    (∃ rest, (trainStep cfg m s im).2.1 =
      Event.samplePriorEv (m.sample_langevin_prior s im) ::
      Event.samplePosteriorEv (m.sample_langevin_posterior s im) ::
      Event.learnEv (m.sample_langevin_posterior s im)
        (m.sample_langevin_prior s im) im :: rest) ∧
    ((trainStep cfg m s im).2.1.countP isLearnEv) = 1 := by
  simp only [trainStep]
  split_ifs <;> exact ⟨⟨_, rfl⟩, rfl⟩

/-- C5: in a pass of the training loop, the log / sample / save action
occurs exactly when the corresponding interval is non-zero, the iteration
number after `learn` is divisible by it, and the iteration has not reached
`MAX_ITERS` (the pass breaks before the three actions otherwise). -/
theorem train_step_interval_actions {σ Z B L : Type} (cfg : TrainConfig)
    (m : EABPModel σ Z B L) (s : σ) (im : B) :
    (Event.logEv ∈ (trainStep cfg m s im).2.1 ↔
      m.iteration (trainStep cfg m s im).1 < cfg.max_iters ∧
      cfg.log_interval ≠ 0 ∧
      m.iteration (trainStep cfg m s im).1 % cfg.log_interval = 0) ∧
    (Event.sampleEv ∈ (trainStep cfg m s im).2.1 ↔
      m.iteration (trainStep cfg m s im).1 < cfg.max_iters ∧
      cfg.sample_interval ≠ 0 ∧
      m.iteration (trainStep cfg m s im).1 % cfg.sample_interval = 0) ∧
    (Event.saveEv ∈ (trainStep cfg m s im).2.1 ↔
      m.iteration (trainStep cfg m s im).1 < cfg.max_iters ∧
      cfg.save_interval ≠ 0 ∧
      m.iteration (trainStep cfg m s im).1 % cfg.save_interval = 0) := by
  by_cases hmax : cfg.max_iters ≤ m.iteration
      (m.learn s (m.sample_langevin_posterior s im)
        (m.sample_langevin_prior s im) im).1
  · have hnlt := not_lt.mpr hmax
    simp only [trainStep, if_pos hmax]
    refine ⟨?_, ?_, ?_⟩ <;> simp [hnlt]
  · have hlt := not_le.mp hmax
    simp only [trainStep, if_neg hmax]
    refine ⟨?_, ?_, ?_⟩ <;>
      (split_ifs with hc1 hc2 hc3 <;> simp_all [List.mem_append])

end DRC
